import Mathlib

/-
  Verification of the good-vs-fun movie-grid client (src/src/App.tsx) against
  its natural-language specification.

  Shallow embedding conventions:
  - JS numbers are modelled as rationals. All scores that the claims touch
    are produced by clampScore and roundScore, which keep them inside the
    exactly-representable decimal grid, so rational arithmetic is faithful.
  - JS Math.round x is floor (x + 1/2) for every finite x (rounding half up),
    which is how roundScore is written below.
  - The JS Map used by the grouping code preserves insertion order; it is
    modelled by a list of groups with an ordered insert.  The JS map key is
    the template string combining the two rounded scores; since both scores
    are nonnegative decimals that string determines the pair, so the model
    keys directly by the pair of rationals.
  - DOM rectangle measurements are modelled by an explicit environment
    (SnapDom) mapping the queries findSnapTarget performs to optional
    rectangles, per the design note in the spec about substituting a
    geometry model for live DOM reads.
-/

namespace GoodVsFun

/-! ## Score Model (App.tsx lines 43 to 44) -/

/-- clampScore from App.tsx: Math.min(10, Math.max(0, value)). -/
def clampScore (value : ℚ) : ℚ := min 10 (max 0 value)

/-- roundScore from App.tsx: Math.round(value * 10) / 10, with
JS Math.round x = floor (x + 1/2). -/
def roundScore (value : ℚ) : ℚ := ((⌊value * 10 + 1/2⌋ : ℤ) : ℚ) / 10

theorem clampScore_nonneg (v : ℚ) : 0 ≤ clampScore v := by
  simp [clampScore, le_min_iff, le_max_iff]

theorem clampScore_le_ten (v : ℚ) : clampScore v ≤ 10 := by
  simp [clampScore]

theorem clampScore_of_mem (v : ℚ) (h0 : 0 ≤ v) (h10 : v ≤ 10) :
    clampScore v = v := by
  simp [clampScore, max_eq_right h0, min_eq_right h10]

theorem roundScore_nonneg (v : ℚ) (h0 : 0 ≤ v) : 0 ≤ roundScore v := by
  have hfloor : (0 : ℤ) ≤ ⌊v * 10 + 1/2⌋ := by
    apply Int.le_floor.mpr
    push_cast
    nlinarith
  unfold roundScore
  positivity

theorem roundScore_le_ten (v : ℚ) (h10 : v ≤ 10) : roundScore v ≤ 10 := by
  have hfloor : ⌊v * 10 + 1/2⌋ ≤ 100 := by
    rw [Int.floor_le_iff]
    push_cast
    nlinarith
  unfold roundScore
  rw [div_le_iff₀ (by norm_num : (0:ℚ) < 10)]
  calc ((⌊v * 10 + 1/2⌋ : ℤ) : ℚ) ≤ ((100 : ℤ) : ℚ) := by exact_mod_cast hfloor
    _ = 10 * 10 := by norm_num

theorem roundScore_int_div_ten (k : ℤ) : roundScore ((k : ℚ) / 10) = (k : ℚ) / 10 := by
  unfold roundScore
  have h1 : (k : ℚ) / 10 * 10 + 1/2 = (k : ℚ) + 1/2 := by ring
  rw [h1]
  have h2 : ⌊(k : ℚ) + 1/2⌋ = k + ⌊(1/2 : ℚ)⌋ := by
    rw [add_comm]
    rw [Int.floor_add_int]
    ring
  have h3 : ⌊(1/2 : ℚ)⌋ = 0 := by
    apply Int.floor_eq_zero_iff.mpr
    constructor <;> norm_num
  rw [h2, h3, add_zero]

/-- The result of roundScore is an integer number of tenths. -/
theorem roundScore_exists_int (v : ℚ) : ∃ k : ℤ, roundScore v = (k : ℚ) / 10 :=
  ⟨⌊v * 10 + 1/2⌋, rfl⟩

/-- The score written on every path that rounds: clamp then round stays
inside the decimal grid of the 0 to 10 scale. -/
theorem roundScore_clampScore_mem (v : ℚ) :
    0 ≤ roundScore (clampScore v) ∧ roundScore (clampScore v) ≤ 10 :=
  ⟨roundScore_nonneg _ (clampScore_nonneg v), roundScore_le_ten _ (clampScore_le_ten v)⟩

theorem clampScore_roundScore_clampScore_fixed (v : ℚ) :
    clampScore (roundScore (clampScore v)) = roundScore (clampScore v) :=
  clampScore_of_mem _ (roundScore_clampScore_mem v).1 (roundScore_clampScore_mem v).2

/-- C9: idempotence of the composite clamp after round after clamp. -/
theorem clamp_round_clamp_idem (v : ℚ) :
    clampScore (roundScore (clampScore (clampScore (roundScore (clampScore v))))) =
      clampScore (roundScore (clampScore v)) := by
  obtain ⟨k, hk⟩ := roundScore_exists_int (clampScore v)
  have hw : clampScore (roundScore (clampScore v)) = roundScore (clampScore v) :=
    clampScore_roundScore_clampScore_fixed v
  rw [hw, hk, clampScore_of_mem ((k : ℚ) / 10), roundScore_int_div_ten,
    clampScore_of_mem ((k : ℚ) / 10)]
  · rw [← hk]; exact roundScore_nonneg _ (clampScore_nonneg v)
  · rw [← hk]; exact roundScore_le_ten _ (clampScore_le_ten v)
  · rw [← hk]; exact roundScore_nonneg _ (clampScore_nonneg v)
  · rw [← hk]; exact roundScore_le_ten _ (clampScore_le_ten v)

/-! ## Data model and Grouping Engine (App.tsx lines 12 to 18 and 224 to 258) -/

/-- The Movie record as the client holds it. JS `fun` is a reserved word in
Lean, hence the guillemets. -/
structure Movie where
  id : String
  title : String
  «fun» : ℚ
  good : ℚ
  createdAt : Option String
deriving DecidableEq, Repr

/-- One entry of the groupedMovies map: the rounded coordinate, the
(id, title) items and the id list, exactly the fields the code builds. -/
structure Group where
  «fun» : ℚ
  good : ℚ
  items : List (String × String)
  ids : List String
deriving DecidableEq, Repr

/-- The composite grouping key: both scores clamped then rounded.  The JS
code keys its Map by the template string combining the two numbers; both are
nonnegative decimals, so that string determines the pair and the model keys
by the pair directly. -/
def movieKey (m : Movie) : ℚ × ℚ :=
  (roundScore (clampScore m.«fun»), roundScore (clampScore m.good))

def groupKey (g : Group) : ℚ × ℚ := (g.«fun», g.good)

/-- One step of the groupedMovies forEach: either push onto the existing
group with the same key (JS Map.get hit) or append a fresh group at the end
(JS Map.set preserves insertion order). -/
def insertMovie : List Group → Movie → List Group
  | [], m => [⟨(movieKey m).1, (movieKey m).2, [(m.id, m.title)], [m.id]⟩]
  | g :: gs, m =>
    if groupKey g = movieKey m then
      { g with items := g.items ++ [(m.id, m.title)], ids := g.ids ++ [m.id] } :: gs
    else
      g :: insertMovie gs m

/-- The accumulation loop of groupedMovies (the forEach over deckMovies). -/
def buildGroups (ms : List Movie) : List Group := ms.foldl insertMovie []

/-- Lexicographic char-code comparison, the model of
a.title.localeCompare(b.title) used for the in-group item sort. -/
def charListLe : List Char → List Char → Bool
  | [], _ => true
  | _ :: _, [] => false
  | a :: as, b :: bs =>
    if a.toNat < b.toNat then true
    else if b.toNat < a.toNat then false
    else charListLe as bs

def titleLe (a b : String × String) : Bool := charListLe a.2.toList b.2.toList

/-- groupedMovies from App.tsx: build the insertion-ordered groups, then
sort each group's items by title. -/
def groupedMovies (ms : List Movie) : List Group :=
  (buildGroups ms).map (fun g => { g with items := g.items.mergeSort titleLe })

/-! ### Grouping invariants -/

def keysOf (gs : List Group) : List (ℚ × ℚ) := gs.map groupKey

/-- All ids collected from the groups carrying key k. -/
def idsWithKey (k : ℚ × ℚ) (gs : List Group) : List String :=
  ((gs.filter (fun g => groupKey g = k)).map Group.ids).flatten

theorem keysOf_cons (g : Group) (gs : List Group) :
    keysOf (g :: gs) = groupKey g :: keysOf gs := rfl

theorem idsWithKey_cons (k : ℚ × ℚ) (g : Group) (gs : List Group) :
    idsWithKey k (g :: gs) =
      (if groupKey g = k then g.ids else []) ++ idsWithKey k gs := by
  unfold idsWithKey
  rw [List.filter_cons]
  by_cases hk : groupKey g = k
  · simp [hk]
  · simp [hk]

theorem keysOf_insertMovie (gs : List Group) (m : Movie) :
    keysOf (insertMovie gs m) =
      if movieKey m ∈ keysOf gs then keysOf gs else keysOf gs ++ [movieKey m] := by
  induction gs with
  | nil => simp [insertMovie, keysOf, groupKey]
  | cons g gs ih =>
    by_cases h : groupKey g = movieKey m
    · have hmem : movieKey m ∈ keysOf (g :: gs) := by
        rw [keysOf_cons, ← h]
        exact List.mem_cons_self _ _
      have hstep : insertMovie (g :: gs) m =
          { g with
              items := g.items ++ [(m.id, m.title)]
              ids := g.ids ++ [m.id] } :: gs := by
        simp only [insertMovie, if_pos h]
      rw [if_pos hmem, hstep]
      rfl
    · have hstep : insertMovie (g :: gs) m = g :: insertMovie gs m := by
        simp only [insertMovie, if_neg h]
      rw [hstep, keysOf_cons, keysOf_cons, ih]
      by_cases hmem : movieKey m ∈ keysOf gs
      · have hmem' : movieKey m ∈ groupKey g :: keysOf gs :=
          List.mem_cons_of_mem _ hmem
        rw [if_pos hmem, if_pos hmem']
      · have hmem' : movieKey m ∉ groupKey g :: keysOf gs := by
          rw [List.mem_cons]
          rintro (he | he)
          · exact h he.symm
          · exact hmem he
        rw [if_neg hmem, if_neg hmem', List.cons_append]

theorem idsWithKey_eq_nil (k : ℚ × ℚ) (gs : List Group) (h : k ∉ keysOf gs) :
    idsWithKey k gs = [] := by
  induction gs with
  | nil => simp [idsWithKey]
  | cons g gs ih =>
    simp only [keysOf, List.map_cons, List.mem_cons, not_or] at h
    have hne : ¬ groupKey g = k := fun he => h.1 he.symm
    simp only [idsWithKey, List.filter_cons, decide_eq_true_eq, if_neg hne]
    exact ih h.2

theorem idsWithKey_insertMovie (gs : List Group) (m : Movie)
    (hnd : (keysOf gs).Nodup) (k : ℚ × ℚ) :
    idsWithKey k (insertMovie gs m) =
      idsWithKey k gs ++ (if movieKey m = k then [m.id] else []) := by
  induction gs with
  | nil =>
    by_cases hk : movieKey m = k <;>
      simp [insertMovie, idsWithKey, groupKey, hk]
  | cons g gs ih =>
    rw [keysOf_cons, List.nodup_cons] at hnd
    by_cases h : groupKey g = movieKey m
    · have hstep : insertMovie (g :: gs) m =
          { g with
              items := g.items ++ [(m.id, m.title)]
              ids := g.ids ++ [m.id] } :: gs := by
        simp only [insertMovie, if_pos h]
      rw [hstep, idsWithKey_cons, idsWithKey_cons]
      have hkeq : groupKey { g with
          items := g.items ++ [(m.id, m.title)]
          ids := g.ids ++ [m.id] } = groupKey g := rfl
      rw [hkeq]
      by_cases hk : groupKey g = k
      · have hmk : movieKey m = k := h ▸ hk
        have hnil : idsWithKey k gs = [] := by
          apply idsWithKey_eq_nil
          rw [← hk]
          exact hnd.1
        rw [if_pos hk, if_pos hk, if_pos hmk, hnil]
        simp
      · have hmk : ¬ movieKey m = k := fun he => hk (h.symm ▸ he)
        rw [if_neg hk, if_neg hk, if_neg hmk, List.append_nil]
    · have hstep : insertMovie (g :: gs) m = g :: insertMovie gs m := by
        simp only [insertMovie, if_neg h]
      rw [hstep, idsWithKey_cons, idsWithKey_cons, ih hnd.2, List.append_assoc]

theorem insertMovie_ids_ne_nil (gs : List Group) (m : Movie)
    (h : ∀ g ∈ gs, g.ids ≠ []) :
    ∀ g ∈ insertMovie gs m, g.ids ≠ [] := by
  induction gs with
  | nil =>
    intro g hg
    simp only [insertMovie, List.mem_singleton] at hg
    subst hg; simp
  | cons g0 gs ih =>
    intro g hg
    by_cases hk : groupKey g0 = movieKey m
    · simp only [insertMovie, if_pos hk, List.mem_cons] at hg
      rcases hg with rfl | hg
      · simp
      · exact h g (List.mem_cons_of_mem _ hg)
    · simp only [insertMovie, if_neg hk, List.mem_cons] at hg
      rcases hg with rfl | hg
      · exact h g (List.mem_cons_self _ _)
      · exact ih (fun g' hg' => h g' (List.mem_cons_of_mem _ hg')) g hg

/-- Main invariant of the grouping fold: keys are pairwise distinct, the ids
under key k are exactly the ids of the movies whose rounded clamped scores
give k (in input order), and no group is empty. -/
theorem buildGroups_spec (ms : List Movie) :
    (keysOf (buildGroups ms)).Nodup ∧
    (∀ k, idsWithKey k (buildGroups ms) =
      (ms.filter (fun m => movieKey m = k)).map Movie.id) ∧
    (∀ g ∈ buildGroups ms, g.ids ≠ []) := by
  induction ms using List.reverseRecOn with
  | nil => refine ⟨by simp [buildGroups, keysOf], fun k => by simp [buildGroups, idsWithKey], ?_⟩
           intro g hg; simp [buildGroups] at hg
  | append_singleton ms m ih =>
    obtain ⟨hnd, hids, hne⟩ := ih
    have hbuild : buildGroups (ms ++ [m]) = insertMovie (buildGroups ms) m := by
      simp [buildGroups, List.foldl_append]
    refine ⟨?_, ?_, ?_⟩
    · rw [hbuild, keysOf_insertMovie]
      by_cases hmem : movieKey m ∈ keysOf (buildGroups ms)
      · simpa [hmem] using hnd
      · simp only [if_neg hmem]
        rw [List.nodup_append]
        exact ⟨hnd, List.nodup_singleton _, by
          intro x hx hx'
          simp only [List.mem_singleton] at hx'
          exact hmem (hx' ▸ hx)⟩
    · intro k
      rw [hbuild, idsWithKey_insertMovie _ _ hnd k, hids k, List.filter_append,
        List.map_append]
      congr 1
      by_cases hk : movieKey m = k <;> simp [hk]
    · rw [hbuild]
      exact insertMovie_ids_ne_nil _ _ hne

/-- Sorting the items of each group changes neither the keys nor the ids. -/
theorem keysOf_groupedMovies (ms : List Movie) :
    keysOf (groupedMovies ms) = keysOf (buildGroups ms) := by
  unfold groupedMovies keysOf
  rw [List.map_map]
  rfl

theorem idsWithKey_groupedMovies (ms : List Movie) (k : ℚ × ℚ) :
    idsWithKey k (groupedMovies ms) = idsWithKey k (buildGroups ms) := by
  unfold groupedMovies idsWithKey
  induction buildGroups ms with
  | nil => simp
  | cons g gs ih =>
    simp only [List.map_cons, List.filter_cons]
    by_cases hk : groupKey g = k
    · have hk' : groupKey { g with items := g.items.mergeSort titleLe } = k := hk
      simp only [decide_eq_true_eq, if_pos hk, if_pos hk', List.map_cons,
        List.flatten_cons]
      rw [ih]
    · have hk' : ¬ groupKey { g with items := g.items.mergeSort titleLe } = k := hk
      simp only [decide_eq_true_eq, if_neg hk, if_neg hk']
      exact ih

theorem mem_idsWithKey_of_mem_group {gs : List Group} {g : Group} {x : String}
    (hg : g ∈ gs) (hx : x ∈ g.ids) : x ∈ idsWithKey (groupKey g) gs := by
  unfold idsWithKey
  rw [List.mem_flatten]
  exact ⟨g.ids, List.mem_map.mpr ⟨g, List.mem_filter.mpr ⟨hg, by simp⟩, rfl⟩, hx⟩

theorem mem_group_of_mem_idsWithKey {gs : List Group} {k : ℚ × ℚ} {x : String}
    (hx : x ∈ idsWithKey k gs) : ∃ g ∈ gs, groupKey g = k ∧ x ∈ g.ids := by
  unfold idsWithKey at hx
  rw [List.mem_flatten] at hx
  obtain ⟨l, hl, hxl⟩ := hx
  obtain ⟨g, hgf, rfl⟩ := List.mem_map.mp hl
  obtain ⟨hg, hk⟩ := List.mem_filter.mp hgf
  exact ⟨g, hg, by simpa using hk, hxl⟩

theorem groupedMovies_keys_nodup (ms : List Movie) :
    (keysOf (groupedMovies ms)).Nodup := by
  rw [keysOf_groupedMovies]
  exact (buildGroups_spec ms).1

theorem groupedMovies_idsWithKey (ms : List Movie) (k : ℚ × ℚ) :
    idsWithKey k (groupedMovies ms) =
      (ms.filter (fun m => movieKey m = k)).map Movie.id := by
  rw [idsWithKey_groupedMovies]
  exact (buildGroups_spec ms).2.1 k

theorem group_eq_of_key_eq {ms : List Movie} {g g' : Group}
    (hg : g ∈ groupedMovies ms) (hg' : g' ∈ groupedMovies ms)
    (hk : groupKey g = groupKey g') : g = g' :=
  List.inj_on_of_nodup_map (groupedMovies_keys_nodup ms) hg hg' hk

/-- Every movie reaches a group that carries its own key. -/
theorem exists_group_of_mem {ms : List Movie} {m : Movie} (hm : m ∈ ms) :
    ∃ g ∈ groupedMovies ms, groupKey g = movieKey m ∧ m.id ∈ g.ids := by
  have hmem : m.id ∈ idsWithKey (movieKey m) (groupedMovies ms) := by
    rw [groupedMovies_idsWithKey]
    exact List.mem_map.mpr ⟨m, List.mem_filter.mpr ⟨hm, by simp⟩, rfl⟩
  obtain ⟨g, hg, hk, hid⟩ := mem_group_of_mem_idsWithKey hmem
  exact ⟨g, hg, hk, hid⟩

/-- Every id found inside a group comes from a movie of the input list whose
key is that group's key. -/
theorem mem_of_mem_group {ms : List Movie} {g : Group} {x : String}
    (hg : g ∈ groupedMovies ms) (hx : x ∈ g.ids) :
    ∃ m' ∈ ms, m'.id = x ∧ movieKey m' = groupKey g := by
  have hmem : x ∈ idsWithKey (groupKey g) (groupedMovies ms) :=
    mem_idsWithKey_of_mem_group hg hx
  rw [groupedMovies_idsWithKey] at hmem
  obtain ⟨m', hm', rfl⟩ := List.mem_map.mp hmem
  obtain ⟨hms, hkey⟩ := List.mem_filter.mp hm'
  exact ⟨m', hms, rfl, by simpa using hkey⟩

/-- C1: groupedMovies is a partition of the movie list.  Under the spec
invariant that ids are unique, every movie lands in exactly one group, two
movies share a group exactly when their clamped rounded score pairs agree,
and groups contain no foreign ids. -/
theorem groupedMovies_partition (ms : List Movie)
    (hids : (ms.map Movie.id).Nodup) :
    (∀ m ∈ ms, ∃! g, g ∈ groupedMovies ms ∧ m.id ∈ g.ids) ∧
    (∀ m₁ ∈ ms, ∀ m₂ ∈ ms,
      ((∃ g ∈ groupedMovies ms, m₁.id ∈ g.ids ∧ m₂.id ∈ g.ids) ↔
        movieKey m₁ = movieKey m₂)) ∧
    (∀ g ∈ groupedMovies ms, ∀ x ∈ g.ids,
      ∃ m' ∈ ms, m'.id = x ∧ movieKey m' = groupKey g) := by
  have hinj : ∀ m ∈ ms, ∀ m' ∈ ms, Movie.id m = Movie.id m' → m = m' :=
    fun m hm m' hm' h => List.inj_on_of_nodup_map hids hm hm' h
  have hkey_of_mem : ∀ g ∈ groupedMovies ms, ∀ m ∈ ms, m.id ∈ g.ids →
      movieKey m = groupKey g := by
    intro g hg m hm hx
    obtain ⟨m', hm's, hid, hk⟩ := mem_of_mem_group hg hx
    have : m' = m := hinj m' hm's m hm hid
    exact this ▸ hk
  refine ⟨?_, ?_, ?_⟩
  · intro m hm
    obtain ⟨g, hg, hk, hid⟩ := exists_group_of_mem hm
    refine ⟨g, ⟨hg, hid⟩, ?_⟩
    rintro g' ⟨hg', hid'⟩
    have hk' : movieKey m = groupKey g' := hkey_of_mem g' hg' m hm hid'
    exact group_eq_of_key_eq hg' hg (by rw [← hk', hk])
  · intro m₁ hm₁ m₂ hm₂
    constructor
    · rintro ⟨g, hg, h₁, h₂⟩
      rw [hkey_of_mem g hg m₁ hm₁ h₁, hkey_of_mem g hg m₂ hm₂ h₂]
    · intro hk
      obtain ⟨g₁, hg₁, hk₁, hid₁⟩ := exists_group_of_mem hm₁
      obtain ⟨g₂, hg₂, hk₂, hid₂⟩ := exists_group_of_mem hm₂
      have : g₁ = g₂ := group_eq_of_key_eq hg₁ hg₂ (by rw [hk₁, hk₂, hk])
      exact ⟨g₁, hg₁, hid₁, this ▸ hid₂⟩
  · intro g hg x hx
    exact mem_of_mem_group hg hx

/-! ## Drag Controller (App.tsx lines 382 to 398, 551 to 573, and the second
variant at 1319 to 1345) -/

/-- applyMovieScores from the main variant: round the clamped pair once and
write it to every movie whose id is in the session id set; all other list
entries pass through untouched.  The JS Set of ids is modelled by list
membership, which is the same predicate. -/
def applyMovieScores (ids : List String) («fun» good : ℚ)
    (movies : List Movie) : List Movie :=
  movies.map (fun m =>
    if m.id ∈ ids then
      { m with
          «fun» := roundScore (clampScore «fun»)
          good := roundScore (clampScore good) }
    else m)

/-- A DOM bounding rectangle.  getBoundingClientRect yields nonnegative
width and height, with right = left + width and bottom = top + height. -/
structure Rect where
  left : ℚ
  top : ℚ
  width : ℚ
  height : ℚ
deriving DecidableEq, Repr

def Rect.right (r : Rect) : ℚ := r.left + r.width

def Rect.bottom (r : Rect) : ℚ := r.top + r.height

/-- The pointer-to-score mapping of the main variant's updateMoviePosition:
clamp the pointer offset into the grid box, send x to Good and the inverted
y to Fun.  Returned as (fun, good), the argument order of
applyMovieScores. -/
def dragScores (rect : Rect) (clientX clientY : ℚ) : ℚ × ℚ :=
  let clampedX := min (max (clientX - rect.left) 0) rect.width
  let clampedY := min (max (clientY - rect.top) 0) rect.height
  let nextGood := clampScore (clampedX / rect.width * 10)
  let nextFun := clampScore ((1 - clampedY / rect.height) * 10)
  (nextFun, nextGood)

/-- updateMoviePosition of the main variant, given the grid's measured
rectangle (the null-grid early return leaves the state untouched and is not
modelled further). -/
def updateMoviePosition (rect : Rect) (ids : List String)
    (clientX clientY : ℚ) (movies : List Movie) : List Movie :=
  applyMovieScores ids (dragScores rect clientX clientY).1
    (dragScores rect clientX clientY).2 movies

/-- The pointer-to-score mapping of the second variant's
updateMoviePosition (App.tsx lines 1319 to 1345): there x feeds Fun and the
inverted y feeds Good, matching that variant's swapped grid rendering. -/
def dragScoresV2 (rect : Rect) (clientX clientY : ℚ) : ℚ × ℚ :=
  let clampedX := min (max (clientX - rect.left) 0) rect.width
  let clampedY := min (max (clientY - rect.top) 0) rect.height
  let nextFun := clampScore (clampedX / rect.width * 10)
  let nextGood := clampScore ((1 - clampedY / rect.height) * 10)
  (nextFun, nextGood)

/-- The second variant's updateMoviePosition writes the rounded pair
inline. -/
def updateMoviePositionV2 (rect : Rect) (ids : List String)
    (clientX clientY : ℚ) (movies : List Movie) : List Movie :=
  movies.map (fun m =>
    if m.id ∈ ids then
      { m with
          «fun» := roundScore (dragScoresV2 rect clientX clientY).1
          good := roundScore (dragScoresV2 rect clientX clientY).2 }
    else m)

theorem clampScore_zero : clampScore 0 = 0 := by norm_num [clampScore]

theorem clampScore_ten : clampScore 10 = 10 := by norm_num [clampScore]

/-- C6: a pointer move writes one rounded pair to exactly the session ids
and leaves every other record, and every other field, unchanged. -/
theorem applyMovieScores_frame (ids : List String) (f g : ℚ)
    (movies : List Movie) :
    (applyMovieScores ids f g movies).length = movies.length ∧
    (∀ (i : ℕ) (m : Movie), movies[i]? = some m →
      (applyMovieScores ids f g movies)[i]? =
        some (if m.id ∈ ids then
          { m with
              «fun» := roundScore (clampScore f)
              good := roundScore (clampScore g) }
        else m)) ∧
    (∀ (i : ℕ) (m : Movie), movies[i]? = some m → ∃ m',
      (applyMovieScores ids f g movies)[i]? = some m' ∧
      m'.id = m.id ∧ m'.title = m.title ∧ m'.createdAt = m.createdAt ∧
      (m.id ∉ ids → m' = m) ∧
      (m.id ∈ ids → m'.«fun» = roundScore (clampScore f) ∧
        m'.good = roundScore (clampScore g))) := by
  refine ⟨by simp [applyMovieScores], ?_, ?_⟩
  · intro i m hm
    unfold applyMovieScores
    rw [List.getElem?_map, hm]
    rfl
  · intro i m hm
    unfold applyMovieScores
    rw [List.getElem?_map, hm]
    refine ⟨_, rfl, ?_⟩
    by_cases hmem : m.id ∈ ids
    · simp [hmem]
    · simp [hmem]

/-- C6 witness: concrete instance with one movie in the session and one
outside it. -/
theorem applyMovieScores_frame_witness :
    ([⟨"a", "A", 1, 2, none⟩, ⟨"b", "B", 3, 4, none⟩] :
        List Movie)[0]? = some ⟨"a", "A", 1, 2, none⟩ ∧
    (∀ (i : ℕ) (m : Movie), ([⟨"a", "A", 1, 2, none⟩, ⟨"b", "B", 3, 4, none⟩] :
        List Movie)[i]? = some m → ∃ m',
      (applyMovieScores ["a"] (37/10) (5/2)
        [⟨"a", "A", 1, 2, none⟩, ⟨"b", "B", 3, 4, none⟩])[i]? = some m' ∧
      m'.id = m.id ∧ m'.title = m.title ∧ m'.createdAt = m.createdAt ∧
      (m.id ∉ ["a"] → m' = m) ∧
      (m.id ∈ ["a"] → m'.«fun» = roundScore (clampScore (37/10)) ∧
        m'.good = roundScore (clampScore (5/2)))) :=
  ⟨rfl, (applyMovieScores_frame ["a"] (37/10) (5/2)
    [⟨"a", "A", 1, 2, none⟩, ⟨"b", "B", 3, 4, none⟩]).2.2⟩

/-- The spec's scenario list: two movies at (7,7) and one at (3,9). -/
def msEx : List Movie :=
  [⟨"a", "Alpha", 7, 7, none⟩, ⟨"b", "Beta", 7, 7, none⟩,
   ⟨"c", "Gamma", 3, 9, none⟩]

/-- C1 witness: the partition theorem applied to the scenario list, its
Nodup hypothesis checked concretely. -/
theorem groupedMovies_partition_witness :
    (msEx.map Movie.id).Nodup ∧
    ((∀ m ∈ msEx, ∃! g, g ∈ groupedMovies msEx ∧ m.id ∈ g.ids) ∧
     (∀ m₁ ∈ msEx, ∀ m₂ ∈ msEx,
       ((∃ g ∈ groupedMovies msEx, m₁.id ∈ g.ids ∧ m₂.id ∈ g.ids) ↔
         movieKey m₁ = movieKey m₂)) ∧
     (∀ g ∈ groupedMovies msEx, ∀ x ∈ g.ids,
       ∃ m' ∈ msEx, m'.id = x ∧ movieKey m' = groupKey g)) :=
  ⟨by decide, groupedMovies_partition msEx (by decide)⟩

theorem dragScores_eq (rect : Rect) (clientX clientY : ℚ) :
    dragScores rect clientX clientY =
      (clampScore ((1 - min (max (clientY - rect.top) 0) rect.height /
          rect.height) * 10),
       clampScore (min (max (clientX - rect.left) 0) rect.width /
          rect.width * 10)) := rfl

theorem dragScoresV2_eq (rect : Rect) (clientX clientY : ℚ) :
    dragScoresV2 rect clientX clientY =
      (clampScore (min (max (clientX - rect.left) 0) rect.width /
          rect.width * 10),
       clampScore ((1 - min (max (clientY - rect.top) 0) rect.height /
          rect.height) * 10)) := rfl

/-- C2 counterexample: in the second variant cited by the claim, a pointer
at the top-left corner of a 100 by 100 grid produces (fun = 0, good = 10),
not the claimed (fun = 10, good = 0). -/
theorem dragScoresV2_topLeft_counterexample :
    dragScoresV2 ⟨0, 0, 100, 100⟩ 0 0 = (0, 10) ∧
    ((0 : ℚ), (10 : ℚ)) ≠ ((10 : ℚ), (0 : ℚ)) := by
  constructor
  · rw [dragScoresV2_eq]
    norm_num [clampScore]
  · intro h
    rw [Prod.mk.injEq] at h
    norm_num at h

/-- C2 amended: the main variant maps x to Good and inverted y to Fun, so
its corners behave as the claim says; the second variant swaps the two
axes, consistently with its swapped grid rendering, so its corners come out
mirrored. -/
theorem dragScores_corners (rect : Rect)
    (hw : 0 < rect.width) (hh : 0 < rect.height) :
    (∀ clientX clientY, dragScores rect clientX clientY =
      (clampScore ((1 - min (max (clientY - rect.top) 0) rect.height /
          rect.height) * 10),
       clampScore (min (max (clientX - rect.left) 0) rect.width /
          rect.width * 10))) ∧
    (∀ clientX clientY, dragScoresV2 rect clientX clientY =
      (clampScore (min (max (clientX - rect.left) 0) rect.width /
          rect.width * 10),
       clampScore ((1 - min (max (clientY - rect.top) 0) rect.height /
          rect.height) * 10))) ∧
    dragScores rect rect.left rect.top = (10, 0) ∧
    dragScores rect (rect.left + rect.width) (rect.top + rect.height) =
      (0, 10) ∧
    dragScoresV2 rect rect.left rect.top = (0, 10) ∧
    dragScoresV2 rect (rect.left + rect.width) (rect.top + rect.height) =
      (10, 0) := by
  have hx0 : min (max (rect.left - rect.left) 0) rect.width = 0 := by
    rw [sub_self, max_self]
    exact min_eq_left hw.le
  have hy0 : min (max (rect.top - rect.top) 0) rect.height = 0 := by
    rw [sub_self, max_self]
    exact min_eq_left hh.le
  have hxw : min (max (rect.left + rect.width - rect.left) 0) rect.width =
      rect.width := by
    have h1 : rect.left + rect.width - rect.left = rect.width := by ring
    rw [h1, max_eq_left hw.le, min_self]
  have hyh : min (max (rect.top + rect.height - rect.top) 0) rect.height =
      rect.height := by
    have h1 : rect.top + rect.height - rect.top = rect.height := by ring
    rw [h1, max_eq_left hh.le, min_self]
  have hdw : rect.width / rect.width = 1 := div_self hw.ne'
  have hdh : rect.height / rect.height = 1 := div_self hh.ne'
  refine ⟨fun cx cy => rfl, fun cx cy => rfl, ?_, ?_, ?_, ?_⟩
  · rw [dragScores_eq, hx0, hy0]
    norm_num [clampScore]
  · rw [dragScores_eq, hxw, hyh, hdw, hdh]
    norm_num [clampScore]
  · rw [dragScoresV2_eq, hx0, hy0]
    norm_num [clampScore]
  · rw [dragScoresV2_eq, hxw, hyh, hdw, hdh]
    norm_num [clampScore]

/-- C2 witness: the amended corner behaviour on a concrete 100 by 100
grid. -/
theorem dragScores_corners_witness :
    (0 : ℚ) < 100 ∧
    (dragScores ⟨0, 0, 100, 100⟩ 0 0 = (10, 0) ∧
     dragScores ⟨0, 0, 100, 100⟩ (0 + 100) (0 + 100) = (0, 10) ∧
     dragScoresV2 ⟨0, 0, 100, 100⟩ 0 0 = (0, 10) ∧
     dragScoresV2 ⟨0, 0, 100, 100⟩ (0 + 100) (0 + 100) = (10, 0)) :=
  ⟨by norm_num,
    (dragScores_corners ⟨0, 0, 100, 100⟩ (by norm_num) (by norm_num)).2.2⟩

/-! ## Snap Resolver (App.tsx lines 400 to 549 and 665 to 677) -/

/-- intersectionArea from findSnapTarget. -/
def intersectionArea (a b : Rect) : ℚ :=
  let x1 := max a.left b.left
  let y1 := max a.top b.top
  let x2 := min a.right b.right
  let y2 := min a.bottom b.bottom
  let width := max 0 (x2 - x1)
  let height := max 0 (y2 - y1)
  width * height

/-- overlapRatio from findSnapTarget: intersection over the smaller area,
zero when either area is zero. -/
def overlapRatio (a b : Rect) : ℚ :=
  let areaA := a.width * a.height
  let areaB := b.width * b.height
  if areaA = 0 ∨ areaB = 0 then 0
  else intersectionArea a b / min areaA areaB

/-- The fixed overlap threshold 0.8. -/
def overlapThreshold : ℚ := 8/10

/-- The fixed fallback pixel threshold 18. -/
def distThreshold : ℚ := 18

inductive DragType where
  | group
  | single
deriving DecidableEq, Repr

/-- The draggingGroup state: session mode, anchor key and session ids. -/
structure DragInfo where
  type : DragType
  key : String
  ids : List String
deriving DecidableEq, Repr

/-- The DOM environment findSnapTarget reads, one field per query it can
make: the grid rectangle, the dragged element measurements for the two
session modes (each with the optional secondary rectangle found inside or
above it), and per candidate group key the anchor rectangle together with
the label rectangles inside it.  A none models querySelector finding
nothing. -/
structure SnapDom where
  grid : Option Rect
  singleDragged : Option (Rect × Option Rect)
  groupDragged : Option (Rect × Option Rect)
  groupEl : ℚ × ℚ → Option (Rect × List Rect)

/-- The draggedRects array: for a single session the dragged label and, when
found, its parent group point; for a group session the group point and, when
found, its label container. -/
def draggedRects (dom : SnapDom) (dragging : DragInfo) : List Rect :=
  match dragging.type with
  | .single =>
    match dom.singleDragged with
    | none => []
    | some (r, parent) => r :: parent.toList
  | .group =>
    match dom.groupDragged with
    | none => []
    | some (r, label) => r :: label.toList

/-- The grouping findSnapTarget rebuilds over moviesRef with the session ids
excluded.  The loop is the same insertion fold as groupedMovies minus the
items bookkeeping and sorting, so the model reuses buildGroups, whose items
field the snap stage never reads. -/
def snapGroups (ms : List Movie) (exclude : List String) : List Group :=
  buildGroups (ms.filter (fun m => m.id ∉ exclude))

/-- The best tracker of the overlap stage. -/
structure BestMatch where
  «fun» : ℚ
  good : ℚ
  ratio : ℚ
deriving DecidableEq, Repr

/-- The JS test (!best || ratio > best.ratio). -/
def betterThan (best : Option BestMatch) (r : ℚ) : Bool :=
  match best with
  | none => true
  | some b => decide (b.ratio < r)

/-- One threshold test of the overlap stage: ratio >= 0.8 and better than
the best so far. -/
def updateBest (g : Group) (r : ℚ) (best : Option BestMatch) :
    Option BestMatch :=
  if overlapThreshold ≤ r ∧ betterThan best r then
    some ⟨g.«fun», g.good, r⟩
  else best

/-- One iteration of the groups.forEach of the overlap stage: skip the
candidate when its element is missing or no dragged rectangle was measured;
otherwise, per dragged rectangle, test the dot rectangle and then each
label rectangle.  Folding over dotRect :: labelRects performs exactly that
order of updates. -/
def processGroup (dom : SnapDom) (drs : List Rect) (best : Option BestMatch)
    (g : Group) : Option BestMatch :=
  match dom.groupEl (groupKey g) with
  | none => best
  | some (dotRect, labelRects) =>
    if drs = [] then best
    else drs.foldl (fun b dr =>
      (dotRect :: labelRects).foldl
        (fun b2 cr => updateBest g (overlapRatio dr cr) b2) b) best

/-- The whole overlap stage of findSnapTarget. -/
def overlapStage (dom : SnapDom) (drs : List Rect) (groups : List Group) :
    Option BestMatch :=
  groups.foldl (processGroup dom drs) none

/-- The candidate rectangles a group contributes to the overlap stage: its
dot rectangle then its label rectangles, none when its element is
missing. -/
def candidateRects (dom : SnapDom) (g : Group) : List Rect :=
  match dom.groupEl (groupKey g) with
  | none => []
  | some (dotRect, labelRects) => dotRect :: labelRects

/-- A group's on-screen anchor x: good drives the horizontal axis. -/
def anchorX (rect : Rect) (g : Group) : ℚ :=
  rect.left + clampScore g.good / 10 * rect.width

/-- A group's on-screen anchor y: fun drives the vertical axis, inverted. -/
def anchorY (rect : Rect) (g : Group) : ℚ :=
  rect.top + (1 - clampScore g.«fun» / 10) * rect.height

/-- Squared Euclidean distance from the pointer to a group's anchor.
Math.hypot is the nonnegative square root, so every comparison the fallback
makes (distance against 18, distance against the best so far) is equivalent
to the same comparison of squares; the model therefore carries squared
distances and squares the 18 pixel threshold. -/
def dist2 (rect : Rect) (clientX clientY : ℚ) (g : Group) : ℚ :=
  (clientX - anchorX rect g)^2 + (clientY - anchorY rect g)^2

/-- The nearest tracker of the fallback stage; the none state is the JS
nearest = null with nearestDistance = Infinity. -/
structure Nearest where
  «fun» : ℚ
  good : ℚ
  d2 : ℚ
deriving DecidableEq, Repr

def closerThan (n : Option Nearest) (d : ℚ) : Bool :=
  match n with
  | none => true
  | some x => decide (d < x.d2)

/-- One iteration of the fallback groups.forEach: distance within 18 pixels
and strictly closer than the best so far. -/
def fallbackStep (rect : Rect) (clientX clientY : ℚ) (n : Option Nearest)
    (g : Group) : Option Nearest :=
  if dist2 rect clientX clientY g ≤ distThreshold^2 ∧
      closerThan n (dist2 rect clientX clientY g) then
    some ⟨g.«fun», g.good, dist2 rect clientX clientY g⟩
  else n

/-- The distance-based fallback of findSnapTarget. -/
def fallbackStage (rect : Rect) (clientX clientY : ℚ)
    (groups : List Group) : Option Nearest :=
  groups.foldl (fallbackStep rect clientX clientY) none

/-- findSnapTarget from App.tsx: null grid means no snap; otherwise the
overlap stage wins if it found a best match, the fallback stage otherwise,
and null when neither found anything. -/
def findSnapTarget (dom : SnapDom) (ms : List Movie) (dragging : DragInfo)
    (clientX clientY : ℚ) : Option (ℚ × ℚ) :=
  match dom.grid with
  | none => none
  | some rect =>
    match overlapStage dom (draggedRects dom dragging)
        (snapGroups ms dragging.ids) with
    | some b => some (b.«fun», b.good)
    | none =>
      match fallbackStage rect clientX clientY
          (snapGroups ms dragging.ids) with
      | none => none
      | some n => some (n.«fun», n.good)

/-- The in-memory effect of handlePointerUp: apply the snap target to the
session ids when one was found, otherwise leave the movie list exactly as
the last pointer-move left it (only persistence runs). -/
def handlePointerUpMovies (dom : SnapDom) (dragging : DragInfo)
    (last : Option (ℚ × ℚ)) (ms : List Movie) : List Movie :=
  match (match last with
         | none => none
         | some p => findSnapTarget dom ms dragging p.1 p.2) with
  | some t => applyMovieScores dragging.ids t.1 t.2 ms
  | none => ms

/-! ### Overlap stage characterization -/

theorem updateBest_none_iff (g : Group) (r : ℚ) :
    updateBest g r none = none ↔ r < overlapThreshold := by
  unfold updateBest betterThan
  by_cases h : overlapThreshold ≤ r
  · simp [h]
  · simp [h, lt_of_not_le h]

theorem updateBest_isSome (g : Group) (r : ℚ) (b : Option BestMatch)
    (hb : b.isSome) : (updateBest g r b).isSome := by
  unfold updateBest
  by_cases h : overlapThreshold ≤ r ∧ betterThan b r
  · simp [h]
  · simpa [h] using hb

theorem foldl_updateBest_isSome (g : Group) (rs : List ℚ)
    (b : Option BestMatch) (hb : b.isSome) :
    (rs.foldl (fun acc r => updateBest g r acc) b).isSome := by
  induction rs generalizing b with
  | nil => exact hb
  | cons r rs ih => exact ih _ (updateBest_isSome g r b hb)

theorem foldl_updateBest_none_iff (g : Group) (rs : List ℚ) :
    rs.foldl (fun acc r => updateBest g r acc) none = none ↔
      ∀ r ∈ rs, r < overlapThreshold := by
  induction rs with
  | nil => simp
  | cons r rs ih =>
    rw [List.foldl_cons]
    by_cases hr : r < overlapThreshold
    · have h0 : updateBest g r none = none := (updateBest_none_iff g r).mpr hr
      rw [h0, ih]
      simp [hr]
    · have h0 : (updateBest g r none).isSome := by
        unfold updateBest betterThan
        simp [le_of_not_lt hr]
      have h1 : (rs.foldl (fun acc r => updateBest g r acc)
          (updateBest g r none)).isSome :=
        foldl_updateBest_isSome g rs _ h0
      constructor
      · intro hc
        rw [hc] at h1
        simp at h1
      · intro hall
        exact absurd (hall r (List.mem_cons_self _ _)) hr

/-- The inner candidate fold, rephrased as a fold over the ratios. -/
theorem candFold_eq_map (g : Group) (dr : Rect) (cands : List Rect)
    (b : Option BestMatch) :
    cands.foldl (fun b2 cr => updateBest g (overlapRatio dr cr) b2) b =
      (cands.map (overlapRatio dr)).foldl
        (fun acc r => updateBest g r acc) b := by
  rw [List.foldl_map]

theorem candFold_isSome (g : Group) (dr : Rect) (cands : List Rect)
    (b : Option BestMatch) (hb : b.isSome) :
    (cands.foldl (fun b2 cr => updateBest g (overlapRatio dr cr) b2)
      b).isSome := by
  rw [candFold_eq_map]
  exact foldl_updateBest_isSome g _ b hb

theorem candFold_none_iff (g : Group) (dr : Rect) (cands : List Rect) :
    cands.foldl (fun b2 cr => updateBest g (overlapRatio dr cr) b2) none =
        none ↔
      ∀ cr ∈ cands, overlapRatio dr cr < overlapThreshold := by
  rw [candFold_eq_map, foldl_updateBest_none_iff]
  constructor
  · intro h cr hcr
    exact h _ (List.mem_map.mpr ⟨cr, hcr, rfl⟩)
  · rintro h r hr
    obtain ⟨cr, hcr, rfl⟩ := List.mem_map.mp hr
    exact h cr hcr

theorem drsFold_isSome (g : Group) (cands : List Rect) (drs : List Rect)
    (b : Option BestMatch) (hb : b.isSome) :
    (drs.foldl (fun b dr => cands.foldl
      (fun b2 cr => updateBest g (overlapRatio dr cr) b2) b) b).isSome := by
  induction drs generalizing b with
  | nil => exact hb
  | cons dr drs ih => exact ih _ (candFold_isSome g dr cands b hb)

theorem drsFold_none_iff (g : Group) (cands : List Rect) (drs : List Rect) :
    drs.foldl (fun b dr => cands.foldl
        (fun b2 cr => updateBest g (overlapRatio dr cr) b2) b) none = none ↔
      ∀ dr ∈ drs, ∀ cr ∈ cands, overlapRatio dr cr < overlapThreshold := by
  induction drs with
  | nil => simp
  | cons dr drs ih =>
    rw [List.foldl_cons]
    by_cases h1 : ∀ cr ∈ cands, overlapRatio dr cr < overlapThreshold
    · have h0 := (candFold_none_iff g dr cands).mpr h1
      rw [h0, ih]
      constructor
      · intro h dr' hdr'
        rcases List.mem_cons.mp hdr' with rfl | hdr'
        · exact h1
        · exact h dr' hdr'
      · intro h dr' hdr'
        exact h dr' (List.mem_cons_of_mem _ hdr')
    · have h0 : (cands.foldl (fun b2 cr =>
          updateBest g (overlapRatio dr cr) b2) none).isSome := by
        rcases hn : cands.foldl (fun b2 cr =>
            updateBest g (overlapRatio dr cr) b2) none with _ | b
        · exact absurd ((candFold_none_iff g dr cands).mp hn) h1
        · rfl
      have h2 := drsFold_isSome g cands drs _ h0
      constructor
      · intro hc
        rw [hc] at h2
        simp at h2
      · intro hall
        exact absurd (fun cr hcr =>
          hall dr (List.mem_cons_self _ _) cr hcr) h1

theorem processGroup_none (dom : SnapDom) (drs : List Rect) (g : Group) :
    processGroup dom drs none g = none ↔
      ∀ dr ∈ drs, ∀ cr ∈ candidateRects dom g,
        overlapRatio dr cr < overlapThreshold := by
  rcases hEl : dom.groupEl (groupKey g) with _ | ⟨dotRect, labelRects⟩
  · simp [processGroup, candidateRects, hEl]
  · by_cases hdrs : drs = []
    · subst hdrs
      simp [processGroup, candidateRects, hEl]
    · simp only [processGroup, candidateRects, hEl, if_neg hdrs]
      exact drsFold_none_iff g (dotRect :: labelRects) drs

theorem processGroup_isSome (dom : SnapDom) (drs : List Rect)
    (b : Option BestMatch) (g : Group) (hb : b.isSome) :
    (processGroup dom drs b g).isSome := by
  rcases hEl : dom.groupEl (groupKey g) with _ | ⟨dotRect, labelRects⟩
  · simpa [processGroup, hEl] using hb
  · by_cases hdrs : drs = []
    · simpa [processGroup, hEl, hdrs] using hb
    · simp only [processGroup, hEl, if_neg hdrs]
      exact drsFold_isSome g (dotRect :: labelRects) drs b hb

theorem overlapStage_foldl_isSome (dom : SnapDom) (drs : List Rect)
    (groups : List Group) (b : Option BestMatch) (hb : b.isSome) :
    (groups.foldl (processGroup dom drs) b).isSome := by
  induction groups generalizing b with
  | nil => exact hb
  | cons g gs ih => exact ih _ (processGroup_isSome dom drs b g hb)

/-- The overlap stage finds nothing exactly when every examined pair of a
dragged rectangle and a candidate rectangle has ratio strictly below the
threshold. -/
theorem overlapStage_none_iff (dom : SnapDom) (drs : List Rect)
    (groups : List Group) :
    overlapStage dom drs groups = none ↔
      ∀ g ∈ groups, ∀ dr ∈ drs, ∀ cr ∈ candidateRects dom g,
        overlapRatio dr cr < overlapThreshold := by
  unfold overlapStage
  induction groups with
  | nil => simp
  | cons g gs ih =>
    rw [List.foldl_cons]
    by_cases h1 : ∀ dr ∈ drs, ∀ cr ∈ candidateRects dom g,
        overlapRatio dr cr < overlapThreshold
    · have h0 := (processGroup_none dom drs g).mpr h1
      rw [h0, ih]
      constructor
      · intro h g' hg'
        rcases List.mem_cons.mp hg' with rfl | hg'
        · exact h1
        · exact h g' hg'
      · intro h g' hg'
        exact h g' (List.mem_cons_of_mem _ hg')
    · have h0 : (processGroup dom drs none g).isSome := by
        rcases Option.eq_none_or_eq_some (processGroup dom drs none g) with
          hn | ⟨b, hb⟩
        · exact absurd ((processGroup_none dom drs g).mp hn) h1
        · simp [hb]
      have h2 := overlapStage_foldl_isSome dom drs gs _ h0
      constructor
      · intro hc
        rw [hc] at h2
        simp at h2
      · intro hall
        exact absurd (hall g (List.mem_cons_self _ _)) h1

/-! ### Fallback stage characterization -/

theorem fallbackStep_none_iff (rect : Rect) (cx cy : ℚ)
    (st : Option Nearest) (g : Group) :
    fallbackStep rect cx cy st g = none ↔
      st = none ∧ ¬ dist2 rect cx cy g ≤ distThreshold^2 := by
  unfold fallbackStep closerThan
  rcases st with _ | m
  · by_cases hd : dist2 rect cx cy g ≤ distThreshold^2
    · simp [hd]
    · simp [hd]
  · by_cases hc : dist2 rect cx cy g ≤ distThreshold^2 ∧
        dist2 rect cx cy g < m.d2
    · simp [hc.1, hc.2]
    · have : ¬ (dist2 rect cx cy g ≤ distThreshold^2 ∧
          (decide (dist2 rect cx cy g < m.d2) = true)) := by
        simpa using hc
      simp only [if_neg this]
      simp

theorem fallbackStep_some (rect : Rect) (cx cy : ℚ)
    (st : Option Nearest) (g : Group) (m : Nearest)
    (h : fallbackStep rect cx cy st g = some m) :
    (st = some m ∨ m = ⟨g.«fun», g.good, dist2 rect cx cy g⟩) ∧
    (dist2 rect cx cy g ≤ distThreshold^2 → m.d2 ≤ dist2 rect cx cy g) ∧
    (∀ m₀, st = some m₀ → m.d2 ≤ m₀.d2) ∧
    (st = none → m.d2 ≤ distThreshold^2) := by
  unfold fallbackStep at h
  by_cases hc : dist2 rect cx cy g ≤ distThreshold^2 ∧
      closerThan st (dist2 rect cx cy g)
  · rw [if_pos hc] at h
    obtain rfl : m = ⟨g.«fun», g.good, dist2 rect cx cy g⟩ :=
      (Option.some_injective _ h).symm
    refine ⟨Or.inr rfl, fun _ => le_refl _, ?_, fun _ => hc.1⟩
    intro m₀ hst
    subst hst
    have := hc.2
    unfold closerThan at this
    simp only [decide_eq_true_eq] at this
    exact le_of_lt this
  · rw [if_neg hc] at h
    subst h
    refine ⟨Or.inl rfl, ?_, fun m₀ hm₀ => by rw [Option.some_injective _ hm₀],
      fun hn => by exact absurd hn (by simp)⟩
    intro hd
    by_contra hlt
    exact hc ⟨hd, by
      unfold closerThan
      simp only [decide_eq_true_eq]
      exact lt_of_not_le hlt⟩

/-- Generalized fold invariant of the distance fallback. -/
theorem fallbackFold_spec (rect : Rect) (cx cy : ℚ) (gs : List Group) :
    ∀ (st : Option Nearest),
      (st = none ∨ ∃ m, st = some m ∧ m.d2 ≤ distThreshold^2) →
      ((gs.foldl (fallbackStep rect cx cy) st = none ↔
        st = none ∧ ∀ g ∈ gs, ¬ dist2 rect cx cy g ≤ distThreshold^2) ∧
      (∀ n, gs.foldl (fallbackStep rect cx cy) st = some n →
        (st = some n ∨ ∃ g ∈ gs,
          n = ⟨g.«fun», g.good, dist2 rect cx cy g⟩) ∧
        n.d2 ≤ distThreshold^2 ∧
        (∀ g ∈ gs, dist2 rect cx cy g ≤ distThreshold^2 →
          n.d2 ≤ dist2 rect cx cy g) ∧
        (∀ m₀, st = some m₀ → n.d2 ≤ m₀.d2))) := by
  induction gs with
  | nil =>
    intro st hst
    refine ⟨by simp, ?_⟩
    intro n hn
    simp only [List.foldl_nil] at hn
    refine ⟨Or.inl hn, ?_, by simp, ?_⟩
    · rcases hst with rfl | ⟨m, rfl, hm⟩
      · simp at hn
      · rwa [← Option.some_injective _ hn]
    · intro m₀ hm₀
      rw [hn] at hm₀
      rw [Option.some_injective _ hm₀]
  | cons g gs ih =>
    intro st hst
    set st1 := fallbackStep rect cx cy st g with hst1
    have hst1_wf : st1 = none ∨ ∃ m, st1 = some m ∧ m.d2 ≤ distThreshold^2 := by
      rcases hn : st1 with _ | m
      · exact Or.inl rfl
      · refine Or.inr ⟨m, rfl, ?_⟩
        obtain ⟨_, _, hmin, hnone⟩ := fallbackStep_some rect cx cy st g m hn
        rcases hst with rfl | ⟨m₀, rfl, hm₀⟩
        · exact hnone rfl
        · exact le_trans (hmin m₀ rfl) hm₀
    obtain ⟨ihnone, ihsome⟩ := ih st1 hst1_wf
    have hfold : (g :: gs).foldl (fallbackStep rect cx cy) st =
        gs.foldl (fallbackStep rect cx cy) st1 := by
      rw [List.foldl_cons]
    constructor
    · rw [hfold, ihnone, fallbackStep_none_iff]
      constructor
      · rintro ⟨⟨hstn, hg⟩, hgs⟩
        refine ⟨hstn, ?_⟩
        intro g' hg'
        rcases List.mem_cons.mp hg' with rfl | hg'
        · exact hg
        · exact hgs g' hg'
      · rintro ⟨hstn, hall⟩
        exact ⟨⟨hstn, hall g (List.mem_cons_self _ _)⟩,
          fun g' hg' => hall g' (List.mem_cons_of_mem _ hg')⟩
    · intro n hn
      rw [hfold] at hn
      obtain ⟨horig, hle, hmin, hinit⟩ := ihsome n hn
      have horig' : st = some n ∨ ∃ g' ∈ g :: gs,
          n = ⟨ g'.«fun», g'.good, dist2 rect cx cy g'⟩ := by
        rcases horig with hst1n | ⟨g', hg', he⟩
        · obtain ⟨hcase, _, _, _⟩ := fallbackStep_some rect cx cy st g n hst1n
          rcases hcase with hstn | he
          · exact Or.inl hstn
          · exact Or.inr ⟨g, List.mem_cons_self _ _, he⟩
        · exact Or.inr ⟨g', List.mem_cons_of_mem _ hg', he⟩
      refine ⟨horig', hle, ?_, ?_⟩
      · intro g' hg' hd
        rcases List.mem_cons.mp hg' with rfl | hg'
        · rcases hn1 : st1 with _ | m1
          · rw [fallbackStep_none_iff] at hn1
            exact absurd hd hn1.2
          · obtain ⟨_, hle1, _, _⟩ :=
              fallbackStep_some rect cx cy st g' m1 hn1
            exact le_trans (hinit m1 hn1) (hle1 hd)
        · exact hmin g' hg' hd
      · intro m₀ hm₀
        rcases hn1 : st1 with _ | m1
        · rw [fallbackStep_none_iff] at hn1
          rw [hm₀] at hn1
          simp at hn1
        · obtain ⟨_, _, hmin1, _⟩ :=
            fallbackStep_some rect cx cy st g m1 hn1
          exact le_trans (hinit m1 hn1) (hmin1 m₀ hm₀)

/-- The fallback stage: none exactly when no candidate group's anchor is
within 18 pixels; a result is a group within 18 pixels whose distance is
minimal among those within 18 pixels. -/
theorem fallbackStage_spec (rect : Rect) (cx cy : ℚ) (groups : List Group) :
    (fallbackStage rect cx cy groups = none ↔
      ∀ g ∈ groups, ¬ dist2 rect cx cy g ≤ distThreshold^2) ∧
    (∀ n, fallbackStage rect cx cy groups = some n →
      (∃ g ∈ groups, n = ⟨g.«fun», g.good, dist2 rect cx cy g⟩) ∧
      n.d2 ≤ distThreshold^2 ∧
      (∀ g ∈ groups, dist2 rect cx cy g ≤ distThreshold^2 →
        n.d2 ≤ dist2 rect cx cy g)) := by
  obtain ⟨hnone, hsome⟩ :=
    fallbackFold_spec rect cx cy groups none (Or.inl rfl)
  refine ⟨by simpa [fallbackStage] using hnone, ?_⟩
  intro n hn
  obtain ⟨horig, hle, hmin, _⟩ := hsome n (by simpa [fallbackStage] using hn)
  rcases horig with hc | hc
  · simp at hc
  · exact ⟨hc, hle, hmin⟩

/-! ### Overlap ratio algebra -/

theorem intersectionArea_comm (a b : Rect) :
    intersectionArea a b = intersectionArea b a := by
  simp only [intersectionArea]
  rw [max_comm a.left b.left, max_comm a.top b.top,
    min_comm a.right b.right, min_comm a.bottom b.bottom]

theorem intersectionArea_nonneg (a b : Rect) : 0 ≤ intersectionArea a b := by
  simp only [intersectionArea]
  exact mul_nonneg (le_max_left 0 _) (le_max_left 0 _)

theorem intersectionArea_le_left (a b : Rect)
    (haw : 0 ≤ a.width) (hah : 0 ≤ a.height) :
    intersectionArea a b ≤ a.width * a.height := by
  simp only [intersectionArea]
  have hw : max 0 (min a.right b.right - max a.left b.left) ≤ a.width := by
    apply max_le haw
    have h1 : min a.right b.right ≤ a.right := min_le_left _ _
    have h2 : a.left ≤ max a.left b.left := le_max_left _ _
    have h3 : a.right = a.left + a.width := rfl
    linarith
  have hh : max 0 (min a.bottom b.bottom - max a.top b.top) ≤ a.height := by
    apply max_le hah
    have h1 : min a.bottom b.bottom ≤ a.bottom := min_le_left _ _
    have h2 : a.top ≤ max a.top b.top := le_max_left _ _
    have h3 : a.bottom = a.top + a.height := rfl
    linarith
  exact mul_le_mul hw hh (le_max_left 0 _) haw

/-- C10: the overlap ratio is symmetric and lives in the unit interval for
rectangles with nonnegative extent. -/
theorem overlapRatio_symm_bounds (a b : Rect)
    (haw : 0 ≤ a.width) (hah : 0 ≤ a.height)
    (hbw : 0 ≤ b.width) (hbh : 0 ≤ b.height) :
    overlapRatio a b = overlapRatio b a ∧
    0 ≤ overlapRatio a b ∧ overlapRatio a b ≤ 1 := by
  have hsymm : overlapRatio a b = overlapRatio b a := by
    simp only [overlapRatio]
    rw [intersectionArea_comm, min_comm]
    by_cases h : a.width * a.height = 0 ∨ b.width * b.height = 0
    · rw [if_pos h, if_pos (Or.symm h)]
    · rw [if_neg h, if_neg (fun hc => h (Or.symm hc))]
  refine ⟨hsymm, ?_, ?_⟩ <;> simp only [overlapRatio]
  · by_cases h : a.width * a.height = 0 ∨ b.width * b.height = 0
    · rw [if_pos h]
    · rw [if_neg h]
      push_neg at h
      have hA : 0 < a.width * a.height :=
        lt_of_le_of_ne (mul_nonneg haw hah) (Ne.symm h.1)
      have hB : 0 < b.width * b.height :=
        lt_of_le_of_ne (mul_nonneg hbw hbh) (Ne.symm h.2)
      exact div_nonneg (intersectionArea_nonneg a b)
        (le_min hA.le hB.le)
  · by_cases h : a.width * a.height = 0 ∨ b.width * b.height = 0
    · rw [if_pos h]; norm_num
    · rw [if_neg h]
      push_neg at h
      have hA : 0 < a.width * a.height :=
        lt_of_le_of_ne (mul_nonneg haw hah) (Ne.symm h.1)
      have hB : 0 < b.width * b.height :=
        lt_of_le_of_ne (mul_nonneg hbw hbh) (Ne.symm h.2)
      rw [div_le_one (lt_min hA hB)]
      refine le_min (intersectionArea_le_left a b haw hah) ?_
      rw [intersectionArea_comm]
      exact intersectionArea_le_left b a hbw hbh

/-- C10 witness: the symmetry and bounds at two concrete rectangles. -/
theorem overlapRatio_symm_bounds_witness :
    ((0:ℚ) ≤ 2 ∧ (0:ℚ) ≤ 3 ∧ (0:ℚ) ≤ 4 ∧ (0:ℚ) ≤ 5) ∧
    (overlapRatio ⟨0, 0, 2, 3⟩ ⟨1, 1, 4, 5⟩ =
        overlapRatio ⟨1, 1, 4, 5⟩ ⟨0, 0, 2, 3⟩ ∧
      0 ≤ overlapRatio ⟨0, 0, 2, 3⟩ ⟨1, 1, 4, 5⟩ ∧
      overlapRatio ⟨0, 0, 2, 3⟩ ⟨1, 1, 4, 5⟩ ≤ 1) :=
  ⟨⟨by norm_num, by norm_num, by norm_num, by norm_num⟩,
    overlapRatio_symm_bounds ⟨0, 0, 2, 3⟩ ⟨1, 1, 4, 5⟩
      (by norm_num) (by norm_num) (by norm_num) (by norm_num)⟩

/-- C3: the ratio is the intersection over the smaller area (zero on zero
area), the overlap stage rejects exactly the ratios strictly below the
threshold, a pair at exactly the threshold is accepted, and the threshold
is 0.8, strictly above 0.79. -/
theorem overlapRatio_threshold_inclusive :
    (∀ a b : Rect, overlapRatio a b =
      if a.width * a.height = 0 ∨ b.width * b.height = 0 then 0
      else intersectionArea a b /
        min (a.width * a.height) (b.width * b.height)) ∧
    (∀ (dom : SnapDom) (drs : List Rect) (groups : List Group),
      overlapStage dom drs groups = none ↔
        ∀ g ∈ groups, ∀ dr ∈ drs, ∀ cr ∈ candidateRects dom g,
          overlapRatio dr cr < overlapThreshold) ∧
    (∀ (dom : SnapDom) (drs : List Rect) (groups : List Group),
      (∃ g ∈ groups, ∃ dr ∈ drs, ∃ cr ∈ candidateRects dom g,
        overlapThreshold ≤ overlapRatio dr cr) →
      (overlapStage dom drs groups).isSome) ∧
    (∀ g : Group, updateBest g overlapThreshold none =
      some ⟨g.«fun», g.good, overlapThreshold⟩) ∧
    ((79 : ℚ)/100 < overlapThreshold ∧ overlapThreshold = 8/10) := by
  refine ⟨fun a b => rfl, overlapStage_none_iff, ?_, ?_, by norm_num [overlapThreshold], rfl⟩
  · intro dom drs groups hex
    rcases hn : overlapStage dom drs groups with _ | b
    · rw [overlapStage_none_iff] at hn
      obtain ⟨g, hg, dr, hdr, cr, hcr, hge⟩ := hex
      exact absurd (hn g hg dr hdr cr hcr) (not_lt.mpr hge)
    · rfl
  · intro g
    unfold updateBest betterThan
    simp

/-- C3 witness: a candidate overlapping the dragged rectangle at exactly
ratio 0.8 makes the overlap stage report a match. -/
theorem overlapRatio_threshold_inclusive_witness :
    (∃ g ∈ [(⟨7, 7, [], ["b"]⟩ : Group)],
      ∃ dr ∈ [(⟨0, 0, 10, 10⟩ : Rect)],
      ∃ cr ∈ candidateRects
        ⟨some ⟨0, 0, 100, 100⟩, none, none,
          fun _ => some (⟨0, 2, 10, 10⟩, [])⟩ g,
        overlapThreshold ≤ overlapRatio dr cr) ∧
    (overlapStage
      ⟨some ⟨0, 0, 100, 100⟩, none, none,
        fun _ => some (⟨0, 2, 10, 10⟩, [])⟩
      [⟨0, 0, 10, 10⟩] [⟨7, 7, [], ["b"]⟩]).isSome := by
  have hmem : (⟨0, 2, 10, 10⟩ : Rect) ∈ candidateRects
      ⟨some ⟨0, 0, 100, 100⟩, none, none,
        fun _ => some (⟨0, 2, 10, 10⟩, [])⟩ ⟨7, 7, [], ["b"]⟩ := by
    simp [candidateRects]
  have hratio : overlapThreshold ≤
      overlapRatio ⟨0, 0, 10, 10⟩ ⟨0, 2, 10, 10⟩ := by
    simp only [overlapRatio, intersectionArea, Rect.right, Rect.bottom]
    norm_num [overlapThreshold]
  have hex : ∃ g ∈ [(⟨7, 7, [], ["b"]⟩ : Group)],
      ∃ dr ∈ [(⟨0, 0, 10, 10⟩ : Rect)],
      ∃ cr ∈ candidateRects
        ⟨some ⟨0, 0, 100, 100⟩, none, none,
          fun _ => some (⟨0, 2, 10, 10⟩, [])⟩ g,
        overlapThreshold ≤ overlapRatio dr cr :=
    ⟨⟨7, 7, [], ["b"]⟩, by simp, ⟨0, 0, 10, 10⟩, by simp, ⟨0, 2, 10, 10⟩,
      hmem, hratio⟩
  exact ⟨hex, overlapRatio_threshold_inclusive.2.2.1 _ _ _ hex⟩

/-- With the grid measured and the overlap stage empty-handed,
findSnapTarget is exactly the fallback result. -/
theorem findSnapTarget_eq_of_overlapStage_none (dom : SnapDom)
    (ms : List Movie) (dragging : DragInfo) (cx cy : ℚ) (rect : Rect)
    (hg : dom.grid = some rect)
    (hov : overlapStage dom (draggedRects dom dragging)
      (snapGroups ms dragging.ids) = none) :
    findSnapTarget dom ms dragging cx cy =
      Option.map (fun n => (n.«fun», n.good))
        (fallbackStage rect cx cy (snapGroups ms dragging.ids)) := by
  unfold findSnapTarget
  rw [hg]
  simp only [hov]
  rcases fallbackStage rect cx cy (snapGroups ms dragging.ids) with _ | n
  · rfl
  · rfl

/-- C4: when no rectangle pair reaches the threshold, the resolver is the
nearest-center fallback: anchors come from the scores via the good to x and
inverted fun to y mapping, the nearest group within 18 pixels (by squared
distance, equivalently by Euclidean distance) wins, and if none is within
18 pixels the resolver returns no snap and pointer-up leaves the movie list
as the last raw update left it. -/
theorem findSnapTarget_fallback (dom : SnapDom) (ms : List Movie)
    (dragging : DragInfo) (cx cy : ℚ) (rect : Rect)
    (hg : dom.grid = some rect)
    (hratio : ∀ g ∈ snapGroups ms dragging.ids,
      ∀ dr ∈ draggedRects dom dragging,
      ∀ cr ∈ candidateRects dom g,
        overlapRatio dr cr < overlapThreshold) :
    (∀ g, anchorX rect g = rect.left + clampScore g.good / 10 * rect.width ∧
      anchorY rect g = rect.top + (1 - clampScore g.«fun» / 10) * rect.height) ∧
    (findSnapTarget dom ms dragging cx cy =
      Option.map (fun n => (n.«fun», n.good))
        (fallbackStage rect cx cy (snapGroups ms dragging.ids))) ∧
    (fallbackStage rect cx cy (snapGroups ms dragging.ids) = none ↔
      ∀ g ∈ snapGroups ms dragging.ids,
        ¬ dist2 rect cx cy g ≤ distThreshold^2) ∧
    (∀ n, fallbackStage rect cx cy (snapGroups ms dragging.ids) = some n →
      (∃ g ∈ snapGroups ms dragging.ids,
        n = ⟨g.«fun», g.good, dist2 rect cx cy g⟩) ∧
      n.d2 ≤ distThreshold^2 ∧
      (∀ g ∈ snapGroups ms dragging.ids,
        dist2 rect cx cy g ≤ distThreshold^2 →
          n.d2 ≤ dist2 rect cx cy g)) ∧
    (findSnapTarget dom ms dragging cx cy = none →
      handlePointerUpMovies dom dragging (some (cx, cy)) ms = ms) := by
  have hov : overlapStage dom (draggedRects dom dragging)
      (snapGroups ms dragging.ids) = none :=
    (overlapStage_none_iff dom (draggedRects dom dragging)
      (snapGroups ms dragging.ids)).mpr hratio
  obtain ⟨hnone, hsome⟩ :=
    fallbackStage_spec rect cx cy (snapGroups ms dragging.ids)
  refine ⟨fun g => ⟨rfl, rfl⟩,
    findSnapTarget_eq_of_overlapStage_none dom ms dragging cx cy rect hg hov,
    hnone, hsome, ?_⟩
  intro hfind
  show (match findSnapTarget dom ms dragging cx cy with
        | some t => applyMovieScores dragging.ids t.1 t.2 ms
        | none => ms) = ms
  rw [hfind]

/-- C4 witness: with every candidate element missing, the resolver takes
the fallback, which snaps the pointer at (75, 30) to the remaining group at
(7, 7), whose anchor on a 100 by 100 grid sits at (70, 30). -/
theorem findSnapTarget_fallback_witness :
    (SnapDom.grid ⟨some ⟨0, 0, 100, 100⟩, none, none, fun _ => none⟩ =
      some ⟨0, 0, 100, 100⟩) ∧
    (∀ g ∈ snapGroups
        [⟨"a", "Alpha", 5, 5, none⟩, ⟨"b", "Beta", 7, 7, none⟩] ["a"],
      ∀ dr ∈ draggedRects
        ⟨some ⟨0, 0, 100, 100⟩, none, none, fun _ => none⟩
        ⟨DragType.single, "a", ["a"]⟩,
      ∀ cr ∈ candidateRects
        ⟨some ⟨0, 0, 100, 100⟩, none, none, fun _ => none⟩ g,
        overlapRatio dr cr < overlapThreshold) ∧
    (findSnapTarget ⟨some ⟨0, 0, 100, 100⟩, none, none, fun _ => none⟩
        [⟨"a", "Alpha", 5, 5, none⟩, ⟨"b", "Beta", 7, 7, none⟩]
        ⟨DragType.single, "a", ["a"]⟩ 75 30 =
      Option.map (fun n => (n.«fun», n.good))
        (fallbackStage ⟨0, 0, 100, 100⟩ 75 30
          (snapGroups
            [⟨"a", "Alpha", 5, 5, none⟩, ⟨"b", "Beta", 7, 7, none⟩]
            ["a"]))) := by
  have hratio : ∀ g ∈ snapGroups
      [⟨"a", "Alpha", 5, 5, none⟩, ⟨"b", "Beta", 7, 7, none⟩] ["a"],
      ∀ dr ∈ draggedRects
        ⟨some ⟨0, 0, 100, 100⟩, none, none, fun _ => none⟩
        ⟨DragType.single, "a", ["a"]⟩,
      ∀ cr ∈ candidateRects
        ⟨some ⟨0, 0, 100, 100⟩, none, none, fun _ => none⟩ g,
        overlapRatio dr cr < overlapThreshold := by
    intro g _ dr _ cr hcr
    simp [candidateRects] at hcr
  exact ⟨rfl, hratio,
    (findSnapTarget_fallback
      ⟨some ⟨0, 0, 100, 100⟩, none, none, fun _ => none⟩
      [⟨"a", "Alpha", 5, 5, none⟩, ⟨"b", "Beta", 7, 7, none⟩]
      ⟨DragType.single, "a", ["a"]⟩ 75 30 ⟨0, 0, 100, 100⟩ rfl
      hratio).2.1⟩

/-- C7: the snap resolver is a total function whose every missing
measurement degrades to no match: a missing grid yields no snap, a missing
dragged element empties the dragged rectangle list, an empty dragged list
or all candidate elements missing silence the overlap stage, zero-area
rectangles score ratio zero, and with the overlap stage silent the result
is just the fallback (possibly no snap at all). -/
theorem findSnapTarget_degrades :
    (∀ (dom : SnapDom) (ms : List Movie) (dragging : DragInfo) (cx cy : ℚ),
      dom.grid = none → findSnapTarget dom ms dragging cx cy = none) ∧
    (∀ (dom : SnapDom) (dragging : DragInfo),
      dragging.type = DragType.single → dom.singleDragged = none →
        draggedRects dom dragging = []) ∧
    (∀ (dom : SnapDom) (dragging : DragInfo),
      dragging.type = DragType.group → dom.groupDragged = none →
        draggedRects dom dragging = []) ∧
    (∀ (dom : SnapDom) (drs : List Rect) (groups : List Group),
      drs = [] → overlapStage dom drs groups = none) ∧
    (∀ (dom : SnapDom) (drs : List Rect) (groups : List Group),
      (∀ k, dom.groupEl k = none) → overlapStage dom drs groups = none) ∧
    (∀ a b : Rect, a.width * a.height = 0 ∨ b.width * b.height = 0 →
      overlapRatio a b = 0) ∧
    (∀ (dom : SnapDom) (ms : List Movie) (dragging : DragInfo)
        (cx cy : ℚ) (rect : Rect), dom.grid = some rect →
      draggedRects dom dragging = [] →
      findSnapTarget dom ms dragging cx cy =
        Option.map (fun n => (n.«fun», n.good))
          (fallbackStage rect cx cy (snapGroups ms dragging.ids))) := by
  refine ⟨?_, ?_, ?_, ?_, ?_, ?_, ?_⟩
  · intro dom ms dragging cx cy h
    unfold findSnapTarget
    rw [h]
  · intro dom dragging ht hs
    unfold draggedRects
    rw [ht, hs]
  · intro dom dragging ht hs
    unfold draggedRects
    rw [ht, hs]
  · intro dom drs groups h
    subst h
    exact (overlapStage_none_iff dom [] groups).mpr (by simp)
  · intro dom drs groups h
    refine (overlapStage_none_iff dom drs groups).mpr ?_
    intro g _ dr _ cr hcr
    simp [candidateRects, h (groupKey g)] at hcr
  · intro a b h
    simp only [overlapRatio]
    rw [if_pos h]
  · intro dom ms dragging cx cy rect hg hdr
    refine findSnapTarget_eq_of_overlapStage_none dom ms dragging cx cy rect hg ?_
    rw [hdr]
    exact (overlapStage_none_iff dom [] (snapGroups ms dragging.ids)).mpr
      (by simp)

/-- C7 witness: a missing grid and a zero-area rectangle, concretely. -/
theorem findSnapTarget_degrades_witness :
    (SnapDom.grid ⟨none, none, none, fun _ => none⟩ = none) ∧
    (findSnapTarget ⟨none, none, none, fun _ => none⟩ []
      ⟨DragType.group, "k", []⟩ 0 0 = none) ∧
    ((0 : ℚ) * 5 = 0 ∨ (3 : ℚ) * 4 = 0) ∧
    overlapRatio ⟨0, 0, 0, 5⟩ ⟨0, 0, 3, 4⟩ = 0 :=
  ⟨rfl,
    findSnapTarget_degrades.1 ⟨none, none, none, fun _ => none⟩ []
      ⟨DragType.group, "k", []⟩ 0 0 rfl,
    Or.inl (by norm_num),
    findSnapTarget_degrades.2.2.2.2.2.1 ⟨0, 0, 0, 5⟩ ⟨0, 0, 3, 4⟩
      (Or.inl (by norm_num))⟩

/-! ## Title formatting (App.tsx lines 47 to 86) -/

/-- The fixed small-word set of formatTitle. -/
def smallWords : List String :=
  ["a", "an", "and", "as", "at", "but", "by", "for", "from", "in", "nor",
   "of", "on", "or", "the", "to", "with"]

/-- The ASCII fragment of the JS whitespace class, which covers every title
the claims touch. -/
def isJsWs (c : Char) : Bool :=
  c == ' ' || c == '\t' || c == '\n' || c == '\r' || c == '\x0b' || c == '\x0c'

/-- String.prototype.trim, on the character list. -/
def trimChars (cs : List Char) : List Char :=
  ((cs.dropWhile isJsWs).reverse.dropWhile isJsWs).reverse

def wordRunsAux : List Char → List Char → List (List Char)
  | [], acc => if acc.isEmpty then [] else [acc.reverse]
  | c :: cs, acc =>
    if isJsWs c then
      if acc.isEmpty then wordRunsAux cs []
      else acc.reverse :: wordRunsAux cs []
    else wordRunsAux cs (c :: acc)

/-- The maximal nonempty runs of non-whitespace characters. -/
def wordRuns (cs : List Char) : List (List Char) := wordRunsAux cs []

/-- split(/\s+/) as formatTitle applies it, that is to an already trimmed
string: the maximal nonempty runs, except that the empty string yields one
empty piece (JS gives one empty string there, which the word mapper then
maps through its falsy-word branch). -/
def jsSplitWs (cs : List Char) : List (List Char) :=
  if (wordRuns cs).isEmpty then [[]] else wordRuns cs

/-- word[0].toUpperCase() + word.slice(1). -/
def capitalizeWord : List Char → List Char
  | [] => []
  | c :: rest => c.toUpper :: rest

/-- The per-word callback of formatTitle: keep a falsy word empty, keep a
small word that is neither first nor last, capitalize anything else. -/
def transformWord (n i : ℕ) (w : List Char) : List Char :=
  if w.isEmpty then []
  else if i ≠ 0 ∧ i ≠ n - 1 ∧ smallWords.contains (String.mk w) then w
  else capitalizeWord w

/-- Array.prototype.map with the element index, as the word mapper uses
it. -/
def mapWithIndexFrom (f : ℕ → List Char → List Char) :
    ℕ → List (List Char) → List (List Char)
  | _, [] => []
  | i, w :: ws => f i w :: mapWithIndexFrom f (i + 1) ws

/-- formatTitle from App.tsx: trim, lower-case (Char.toLower models the
ASCII fragment of toLowerCase), split on whitespace, transform each word
by its position, join with single spaces. -/
def formatTitle (value : String) : String :=
  let lowered := (trimChars value.toList).map Char.toLower
  let words := jsSplitWs lowered
  String.mk (List.intercalate [' ']
    (mapWithIndexFrom (transformWord words.length) 0 words))

theorem mapWithIndexFrom_getElem? (f : ℕ → List Char → List Char)
    (j : ℕ) (ws : List (List Char)) (i : ℕ) :
    (mapWithIndexFrom f j ws)[i]? = (ws[i]?).map (f (j + i)) := by
  induction ws generalizing j i with
  | nil => simp [mapWithIndexFrom]
  | cons w ws ih =>
    cases i with
    | zero => simp [mapWithIndexFrom]
    | succ i =>
      have harith : j + 1 + i = j + (i + 1) := by omega
      simp only [mapWithIndexFrom, List.getElem?_cons_succ, ih (j + 1) i,
        harith]

/-- C8: formatTitle is the trim, lower-case, split, position-aware
capitalize, join pipeline; each word is kept verbatim exactly when it is a
small word in a middle position, capitalized otherwise; and the scenario
title comes out as The Dark Knight with its leading small word
capitalized. -/
theorem formatTitle_spec :
    (∀ value : String, formatTitle value =
      String.mk (List.intercalate [' ']
        (mapWithIndexFrom
          (transformWord
            (jsSplitWs ((trimChars value.toList).map Char.toLower)).length)
          0 (jsSplitWs ((trimChars value.toList).map Char.toLower))))) ∧
    (∀ (n : ℕ) (ws : List (List Char)) (i : ℕ) (w : List Char),
      ws[i]? = some w →
      (mapWithIndexFrom (transformWord n) 0 ws)[i]? = some
        (if w.isEmpty then []
         else if i ≠ 0 ∧ i ≠ n - 1 ∧ smallWords.contains (String.mk w) then w
         else capitalizeWord w)) ∧
    formatTitle "the dark knight" = "The Dark Knight" := by
  refine ⟨fun value => rfl, ?_, by decide⟩
  intro n ws i w hw
  rw [mapWithIndexFrom_getElem?, hw]
  simp only [Option.map_some, Nat.zero_add]
  rfl

/-- C8 witness: the word characterization at a concrete middle small
word. -/
theorem formatTitle_spec_witness :
    (([['o','f']] : List (List Char))[0]? = some ['o','f']) ∧
    (mapWithIndexFrom (transformWord 3) 0 [['o','f']])[0]? = some
      (if (['o','f'] : List Char).isEmpty then []
       else if (0 : ℕ) ≠ 0 ∧ (0 : ℕ) ≠ 3 - 1 ∧
          smallWords.contains (String.mk ['o','f']) then ['o','f']
       else capitalizeWord ['o','f']) :=
  ⟨rfl, formatTitle_spec.2.1 3 [['o','f']] 0 ['o','f'] rfl⟩

/-! ## New-movie submission (App.tsx lines 341 to 380) -/

/-- The payload handleSubmit sends: none when the trimmed title is empty or
no deck is selected, otherwise the formatted title with the two scores
clamped (the code applies clampScore only, no roundScore, to the typed
scores). -/
def handleSubmitPayload (title : String) (hasDeck : Bool)
    («fun» good : ℚ) : Option (String × ℚ × ℚ) :=
  if String.mk (trimChars title.toList) = "" ∨ hasDeck = false then none
  else some (formatTitle (String.mk (trimChars title.toList)),
    clampScore «fun», clampScore good)

/-- C5 counterexample: submitting a typed score of 7.25 sends exactly 7.25
to the backend; the value is clamped but not rounded to one decimal (its
rounding would be 7.3), so the submission write path does not round. -/
theorem handleSubmit_no_rounding_counterexample :
    handleSubmitPayload "interstellar" true (29/4) 7 =
      some ("Interstellar", 29/4, 7) ∧
    roundScore (29/4) = 73/10 ∧ (29/4 : ℚ) ≠ 73/10 := by
  refine ⟨?_, ?_, by norm_num⟩
  · have htrim : String.mk (trimChars "interstellar".toList) =
        "interstellar" := by decide
    unfold handleSubmitPayload
    rw [htrim]
    rw [if_neg (by simp)]
    have hfmt : formatTitle "interstellar" = "Interstellar" := by decide
    rw [hfmt]
    have h1 : clampScore (29/4) = 29/4 := by
      apply clampScore_of_mem <;> norm_num
    have h2 : clampScore 7 = 7 := by
      apply clampScore_of_mem <;> norm_num
    rw [h1, h2]
  · unfold roundScore
    norm_num

/-- C5 amended: the drag write path clamps and rounds, so everything it
writes is a decimal in the 0 to 10 range; the submission write path clamps
only, so its scores are in range but are sent exactly as typed and are a
tenth-grid value only when the typed value already is (the number input's
0.1 step enforces that upstream of this code). -/
theorem score_write_paths_amended («fun» good : ℚ) (title : String)
    (hasDeck : Bool) :
    (0 ≤ roundScore (clampScore «fun») ∧
      roundScore (clampScore «fun») ≤ 10 ∧
      ∃ k : ℤ, roundScore (clampScore «fun») = (k : ℚ) / 10) ∧
    (∀ p, handleSubmitPayload title hasDeck «fun» good = some p →
      p.2.1 = clampScore «fun» ∧ p.2.2 = clampScore good ∧
      0 ≤ p.2.1 ∧ p.2.1 ≤ 10 ∧ 0 ≤ p.2.2 ∧ p.2.2 ≤ 10) ∧
    (∀ (ids : List String) (ms : List Movie) (i : ℕ) (m m' : Movie),
      ms[i]? = some m →
      (applyMovieScores ids «fun» good ms)[i]? = some m' →
      m.id ∈ ids →
      m'.«fun» = roundScore (clampScore «fun») ∧
      m'.good = roundScore (clampScore good)) := by
  refine ⟨⟨roundScore_nonneg _ (clampScore_nonneg _),
    roundScore_le_ten _ (clampScore_le_ten _),
    roundScore_exists_int _⟩, ?_, ?_⟩
  · intro p hp
    unfold handleSubmitPayload at hp
    by_cases hc : String.mk (trimChars title.toList) = "" ∨ hasDeck = false
    · rw [if_pos hc] at hp
      exact absurd hp (by simp)
    · rw [if_neg hc] at hp
      obtain rfl := (Option.some_injective _ hp).symm
      exact ⟨rfl, rfl, clampScore_nonneg _, clampScore_le_ten _,
        clampScore_nonneg _, clampScore_le_ten _⟩
  · intro ids ms i m m' hm hm' hmem
    unfold applyMovieScores at hm'
    rw [List.getElem?_map, hm] at hm'
    obtain rfl := (Option.some_injective _ hm').symm
    simp [hmem]

/-- C5 witness: the amended statement at a concrete submission whose typed
score 7.25 goes through unrounded, and a concrete drag update. -/
theorem score_write_paths_amended_witness :
    handleSubmitPayload "up" true (29/4) 7 = some ("Up", 29/4, 7) ∧
    (("Up", (29/4 : ℚ), (7 : ℚ)).2.1 = clampScore (29/4) ∧
      ("Up", (29/4 : ℚ), (7 : ℚ)).2.2 = clampScore 7 ∧
      0 ≤ ("Up", (29/4 : ℚ), (7 : ℚ)).2.1 ∧
      ("Up", (29/4 : ℚ), (7 : ℚ)).2.1 ≤ 10 ∧
      0 ≤ ("Up", (29/4 : ℚ), (7 : ℚ)).2.2 ∧
      ("Up", (29/4 : ℚ), (7 : ℚ)).2.2 ≤ 10) := by
  have hpay : handleSubmitPayload "up" true (29/4) 7 =
      some ("Up", 29/4, 7) := by
    have htrim : String.mk (trimChars "up".toList) = "up" := by decide
    unfold handleSubmitPayload
    rw [htrim, if_neg (by simp)]
    have hfmt : formatTitle "up" = "Up" := by decide
    rw [hfmt]
    have h1 : clampScore (29/4) = 29/4 := by
      apply clampScore_of_mem <;> norm_num
    have h2 : clampScore 7 = 7 := by
      apply clampScore_of_mem <;> norm_num
    rw [h1, h2]
  exact ⟨hpay,
    (score_write_paths_amended (29/4) 7 "up" true).2.1 ("Up", 29/4, 7) hpay⟩

end GoodVsFun
